import Mathlib

/-!
Shallow embedding of `src/ouroboros.c`, a fixed-capacity overwrite-on-full
circular buffer of NUL-terminated strings exposed through a procfs file.

Modelling conventions:
* Bytes are `Nat`; a slot (`char[STR_SIZE]`) is modelled by its readback
  content, i.e. the byte list before the terminating NUL that `strlen`
  would see.  This is exact for every observable behaviour: `strncpy`
  followed by the explicit terminator at `STR_SIZE - 1` zero-pads the rest
  of the slot, so the readback string determines the slot.
* `copy_to_user` / `copy_from_user` may fail; a `fault : Bool` oracle says
  whether the boundary copy fails, mirroring the nonzero return of those
  kernel helpers (in which case the C code returns `-EFAULT`).
* The file offset `loff_t *pos` is modelled as a `Nat`: the VFS never hands
  a negative offset to these handlers, the offset starts at 0 on open and
  the handler only ever increases it.
-/

namespace Ouroboros

/-- `MAX_STRINGS` from ouroboros.c: capacity of the circular buffer. -/
def MAX_STRINGS : Nat := 10

/-- `STR_SIZE` from ouroboros.c: size of each slot, terminator included. -/
def STR_SIZE : Nat := 64

/-- The mutable module-level state of ouroboros.c: the slot array
`circular_buffer` (each slot modelled by its readback string), the write
index `head`, the read index `tail` and the unread-record counter
`line_count`. -/
structure KState where
  circular_buffer : Fin MAX_STRINGS → List Nat
  head : Nat
  tail : Nat
  line_count : Nat

/-- The state right after module load: zeroed slots (empty strings) and
`head = tail = line_count = 0`. -/
def initState : KState :=
  { circular_buffer := fun _ => [], head := 0, tail := 0, line_count := 0 }

/-- The C-string view of a byte sequence: the bytes before the first NUL
(what `strlen`/`strncpy` traverse). -/
def cstr (l : List Nat) : List Nat := l.takeWhile (· ≠ 0)

/-- Content of the slot at index `i % MAX_STRINGS`.  The C code always
indexes with a value already reduced modulo `MAX_STRINGS`; taking the
remainder here keeps the function total without changing those calls. -/
def slotAt (s : KState) (i : Nat) : List Nat :=
  s.circular_buffer ⟨i % MAX_STRINGS, Nat.mod_lt _ (by decide)⟩

/-- Slot content produced by `strncpy(slot, input, STR_SIZE - 1)` followed
by `slot[STR_SIZE - 1] = '\0'`: the first `STR_SIZE - 1` bytes of the
C string `input`. -/
def storedVal (input : List Nat) : List Nat := (cstr input).take (STR_SIZE - 1)

/-- `add_to_buffer` from ouroboros.c: store the string at `head`, advance
`head` modulo `MAX_STRINGS`; if the buffer is not full increment
`line_count`, otherwise advance `tail` (overwrite mode). -/
def add_to_buffer (input : List Nat) (s : KState) : KState :=
  let buf := Function.update s.circular_buffer
    ⟨s.head % MAX_STRINGS, Nat.mod_lt _ (by decide)⟩ (storedVal input)
  let h := (s.head + 1) % MAX_STRINGS
  if s.line_count < MAX_STRINGS then
    { circular_buffer := buf, head := h, tail := s.tail,
      line_count := s.line_count + 1 }
  else
    { circular_buffer := buf, head := h, tail := (s.tail + 1) % MAX_STRINGS,
      line_count := s.line_count }

/-- Result of one `proc_read` call: the state after the call, the updated
file offset, the return value of the handler, and the bytes that were
copied into the user buffer. -/
structure ReadResult where
  state : KState
  pos : Nat
  ret : Int
  out : List Nat

/-- The `EFAULT` errno value (the handlers return `-EFAULT` on a failed
user-space copy). -/
def EFAULT : Int := 14

set_option linter.unusedVariables false in
/-- `proc_read` from ouroboros.c.  `count` is the caller's requested byte
count (the C code never uses it), `pos` the session file offset, `fault`
whether `copy_to_user` fails.  Note the faithful order of operations:
`tail` and `line_count` are updated before the user-space copy is
attempted. -/
def proc_read (count : Nat) (pos : Nat) (fault : Bool) (s : KState) :
    ReadResult :=
  if 0 < pos then
    { state := s, pos := pos, ret := 0, out := [] }
  else if s.line_count = 0 then
    { state := s, pos := pos, ret := 0, out := [] }
  else
    let target_str := slotAt s s.tail
    let len := target_str.length
    let s2 : KState :=
      { s with tail := (s.tail + 1) % MAX_STRINGS,
               line_count := s.line_count - 1 }
    if fault then
      { state := s2, pos := pos, ret := -EFAULT, out := [] }
    else
      { state := s2, pos := pos + len, ret := (len : Int), out := target_str }

/-- `proc_write` from ouroboros.c.  `usr_buf` is the caller's data and its
length is the caller's byte count `count`; `fault` says whether
`copy_from_user` fails.  The kernel copy `kbuf` receives
`min count (STR_SIZE - 1)` raw bytes and a terminator at that position, so
as a C string it is `cstr` of those bytes; the handler returns the
original `count`. -/
def proc_write (usr_buf : List Nat) (fault : Bool) (s : KState) :
    KState × Int :=
  if fault then (s, -EFAULT)
  else
    (add_to_buffer (cstr (usr_buf.take (min usr_buf.length (STR_SIZE - 1)))) s,
     (usr_buf.length : Int))

/-- The string that one `proc_write` of `usr_buf` ends up storing. -/
def wstored (usr_buf : List Nat) : List Nat :=
  cstr (usr_buf.take (min usr_buf.length (STR_SIZE - 1)))

/-- One externally triggerable operation on the module state. -/
inductive Op where
  | write (usr_buf : List Nat) (fault : Bool)
  | read (count : Nat) (pos : Nat) (fault : Bool)

/-- Effect of one operation on the state. -/
def step (s : KState) : Op → KState
  | Op.write d f => (proc_write d f s).1
  | Op.read c p f => (proc_read c p f s).state

/-- State reached from module load after a sequence of operations. -/
def run (ops : List Op) : KState := ops.foldl step initState

/-- Appending a list of records in order via fault-free `proc_write`s. -/
def appendAll : List (List Nat) → KState → KState
  | [], s => s
  | x :: xs, s => appendAll xs ((proc_write x false s).1)

/-- `k` fault-free fresh-session reads (each a separate open/read/close
cycle, so each with offset 0); returns the final state and the list of
byte strings delivered to the caller, in order. -/
def consumeN : Nat → KState → KState × List (List Nat)
  | 0, s => (s, [])
  | k + 1, s =>
    let r := proc_read 0 0 false s
    let p := consumeN k r.state
    (p.1, r.out :: p.2)

/-- The unread records, oldest first. -/
def queue (s : KState) : List (List Nat) :=
  (List.range s.line_count).map (fun i => slotAt s (s.tail + i))

/-- The state invariant maintained by the module: both indices live in
`[0, MAX_STRINGS)`, at most `MAX_STRINGS` records are unread, and `head`
sits `line_count` slots (cyclically) after `tail`. -/
def Inv (s : KState) : Prop :=
  s.head < MAX_STRINGS ∧ s.tail < MAX_STRINGS ∧
    s.line_count ≤ MAX_STRINGS ∧
    s.head = (s.tail + s.line_count) % MAX_STRINGS

/-! ### Basic lemmas about the embedding -/

theorem slotAt_congr (s : KState) {i j : Nat}
    (h : i % MAX_STRINGS = j % MAX_STRINGS) : slotAt s i = slotAt s j := by
  simp only [slotAt, h]

theorem slotAt_mk (b : Fin MAX_STRINGS → List Nat) (h t lc : Nat) (i : Nat) :
    slotAt ⟨b, h, t, lc⟩ i = b ⟨i % MAX_STRINGS, Nat.mod_lt _ (by decide)⟩ :=
  rfl

theorem slotAt_add (s : KState) (x : List Nat) (i : Nat) :
    slotAt (add_to_buffer x s) i =
      if i % MAX_STRINGS = s.head % MAX_STRINGS then storedVal x
      else slotAt s i := by
  unfold add_to_buffer
  split <;>
    · simp only [slotAt, Function.update_apply, Fin.mk.injEq]

theorem add_head (s : KState) (x : List Nat) :
    (add_to_buffer x s).head = (s.head + 1) % MAX_STRINGS := by
  unfold add_to_buffer; split <;> rfl

theorem add_tail (s : KState) (x : List Nat) :
    (add_to_buffer x s).tail =
      if s.line_count < MAX_STRINGS then s.tail
      else (s.tail + 1) % MAX_STRINGS := by
  unfold add_to_buffer; split <;> simp_all

theorem add_line_count (s : KState) (x : List Nat) :
    (add_to_buffer x s).line_count =
      if s.line_count < MAX_STRINGS then s.line_count + 1
      else s.line_count := by
  unfold add_to_buffer; split <;> simp_all

theorem proc_write_state (x : List Nat) (s : KState) :
    (proc_write x false s).1 = add_to_buffer (wstored x) s := rfl

theorem proc_write_ret (x : List Nat) (s : KState) :
    (proc_write x false s).2 = (x.length : Int) := rfl

theorem read_consume (c : Nat) (s : KState) (hne : s.line_count ≠ 0) :
    proc_read c 0 false s =
      { state := { s with tail := (s.tail + 1) % MAX_STRINGS,
                          line_count := s.line_count - 1 },
        pos := (slotAt s s.tail).length,
        ret := ((slotAt s s.tail).length : Int),
        out := slotAt s s.tail } := by
  unfold proc_read
  simp [hne]

theorem read_fault (c : Nat) (s : KState) (hne : s.line_count ≠ 0) :
    proc_read c 0 true s =
      { state := { s with tail := (s.tail + 1) % MAX_STRINGS,
                          line_count := s.line_count - 1 },
        pos := 0, ret := -EFAULT, out := [] } := by
  unfold proc_read
  simp [hne]

theorem read_posit (c p : Nat) (f : Bool) (s : KState) (hp : 0 < p) :
    proc_read c p f s = { state := s, pos := p, ret := 0, out := [] } := by
  unfold proc_read
  simp [hp]

theorem read_empty (c : Nat) (f : Bool) (s : KState) (h0 : s.line_count = 0) :
    proc_read c 0 f s = { state := s, pos := 0, ret := 0, out := [] } := by
  unfold proc_read
  simp [h0]

/-! ### C-string lemmas -/

theorem cstr_idem (l : List Nat) : cstr (cstr l) = cstr l := by
  unfold cstr
  exact List.takeWhile_idem

theorem cstr_of_pos {l : List Nat} (h : ∀ b ∈ l, b ≠ 0) : cstr l = l := by
  unfold cstr
  rw [List.takeWhile_eq_self_iff]
  intro x hx
  simpa using h x hx

theorem cstr_length_le (l : List Nat) : (cstr l).length ≤ l.length := by
  unfold cstr
  induction l with
  | nil => simp
  | cons a t ih =>
    rw [List.takeWhile_cons]
    split
    · simpa using ih
    · simp

theorem wstored_length_le (x : List Nat) :
    (wstored x).length ≤ STR_SIZE - 1 := by
  unfold wstored
  calc (cstr (x.take (min x.length (STR_SIZE - 1)))).length
      ≤ (x.take (min x.length (STR_SIZE - 1))).length := cstr_length_le _
    _ ≤ STR_SIZE - 1 := by
        rw [List.length_take]
        omega

theorem storedVal_wstored (x : List Nat) :
    storedVal (wstored x) = wstored x := by
  unfold storedVal
  rw [show cstr (wstored x) = wstored x from cstr_idem _]
  exact List.take_of_length_le (wstored_length_le x)

theorem wstored_of_fit {x : List Nat} (h0 : ∀ b ∈ x, b ≠ 0)
    (hl : x.length ≤ STR_SIZE - 1) : wstored x = x := by
  unfold wstored
  rw [min_eq_left hl, List.take_length]
  exact cstr_of_pos h0

/-! ### Invariant preservation -/

theorem Inv_initState : Inv initState := by
  constructor
  · decide
  · exact ⟨by decide, by decide, by decide⟩

theorem Inv_add {s : KState} (x : List Nat) (h : Inv s) :
    Inv (add_to_buffer x s) := by
  obtain ⟨h1, h2, h3, h4⟩ := h
  simp only [Inv, add_head, add_tail, add_line_count]
  simp only [MAX_STRINGS] at *
  by_cases hlt : s.line_count < 10 <;> simp only [hlt, if_true, if_false] <;>
    refine ⟨by omega, by omega, by omega, by omega⟩

theorem slotAt_set_tail (s : KState) (t lc j : Nat) :
    slotAt { s with tail := t, line_count := lc } j = slotAt s j := rfl

theorem Inv_read {s : KState} (c p : Nat) (f : Bool) (h : Inv s) :
    Inv (proc_read c p f s).state := by
  obtain ⟨h1, h2, h3, h4⟩ := h
  unfold proc_read
  split
  · exact ⟨h1, h2, h3, h4⟩
  · split
    · exact ⟨h1, h2, h3, h4⟩
    · rename_i hne
      split <;>
        · refine ⟨?_, ?_, ?_, ?_⟩ <;>
            · dsimp only
              simp only [MAX_STRINGS] at *
              omega

theorem Inv_step {s : KState} (o : Op) (h : Inv s) : Inv (step s o) := by
  cases o with
  | write d f =>
    cases f with
    | false => exact Inv_add _ h
    | true => exact h
  | read c p f => exact Inv_read c p f h

theorem Inv_run (ops : List Op) : Inv (run ops) := by
  unfold run
  have : ∀ (l : List Op) (s : KState), Inv s → Inv (l.foldl step s) := by
    intro l
    induction l with
    | nil => intro s hs; exact hs
    | cons o t ih => intro s hs; exact ih _ (Inv_step o hs)
  exact this ops initState Inv_initState

/-! ### Queue lemmas -/

theorem queue_length (s : KState) : (queue s).length = s.line_count := by
  simp [queue]

theorem queue_initState : queue initState = [] := by
  simp [queue, initState]

theorem queue_cons (s : KState) (hne : s.line_count ≠ 0) :
    queue s = slotAt s s.tail :: (queue s).drop 1 := by
  obtain ⟨m, hm⟩ := Nat.exists_eq_succ_of_ne_zero hne
  simp only [queue, hm, List.range_succ_eq_map, List.map_cons, Nat.add_zero,
    List.map_map, List.drop_succ_cons, List.drop_zero]

theorem queue_add_not_full {s : KState} (x : List Nat) (hInv : Inv s)
    (hlt : s.line_count < MAX_STRINGS) :
    queue (add_to_buffer x s) = queue s ++ [storedVal x] := by
  obtain ⟨h1, h2, h3, h4⟩ := hInv
  have htail : (add_to_buffer x s).tail = s.tail := by
    rw [add_tail]; simp [hlt]
  have hlc : (add_to_buffer x s).line_count = s.line_count + 1 := by
    rw [add_line_count]; simp [hlt]
  unfold queue
  rw [htail, hlc, List.range_succ, List.map_append, List.map_cons,
    List.map_nil]
  congr 1
  · apply List.map_congr_left
    intro i hi
    rw [List.mem_range] at hi
    rw [slotAt_add, if_neg]
    simp only [MAX_STRINGS] at *
    omega
  · rw [slotAt_add,
      if_pos (show (s.tail + s.line_count) % MAX_STRINGS =
          s.head % MAX_STRINGS by simp only [MAX_STRINGS] at *; omega)]

theorem queue_add_full {s : KState} (x : List Nat) (hInv : Inv s)
    (hfull : s.line_count = MAX_STRINGS) :
    queue (add_to_buffer x s) = (queue s).drop 1 ++ [storedVal x] := by
  obtain ⟨h1, h2, h3, h4⟩ := hInv
  have hnlt : ¬ s.line_count < MAX_STRINGS := by omega
  have htail : (add_to_buffer x s).tail = (s.tail + 1) % MAX_STRINGS := by
    rw [add_tail]; simp [hnlt]
  have hlc : (add_to_buffer x s).line_count = s.line_count := by
    rw [add_line_count]; simp [hnlt]
  unfold queue
  rw [htail, hlc, hfull]
  have hsplit : List.range MAX_STRINGS = List.range 9 ++ [9] := by decide
  have hcons : List.range MAX_STRINGS =
      0 :: List.map Nat.succ (List.range 9) := by decide
  have lhs : (List.range MAX_STRINGS).map
        (fun i => slotAt (add_to_buffer x s) ((s.tail + 1) % MAX_STRINGS + i))
      = (List.range 9).map
          (fun i => slotAt (add_to_buffer x s) ((s.tail + 1) % MAX_STRINGS + i))
        ++ [slotAt (add_to_buffer x s) ((s.tail + 1) % MAX_STRINGS + 9)] := by
    rw [hsplit, List.map_append, List.map_cons, List.map_nil]
  have rhs : ((List.range MAX_STRINGS).map
        (fun i => slotAt s (s.tail + i))).drop 1
      = (List.range 9).map (fun i => slotAt s (s.tail + Nat.succ i)) := by
    rw [hcons, List.map_cons, List.drop_one, List.tail_cons, List.map_map]
    rfl
  rw [lhs, rhs]
  congr 1
  · apply List.map_congr_left
    intro i hi
    rw [List.mem_range] at hi
    rw [slotAt_congr (add_to_buffer x s)
        (show ((s.tail + 1) % MAX_STRINGS + i) % MAX_STRINGS =
            (s.tail + Nat.succ i) % MAX_STRINGS by
          simp only [MAX_STRINGS] at *; omega),
      slotAt_add, if_neg]
    simp only [MAX_STRINGS] at *
    omega
  · rw [slotAt_add,
      if_pos (show ((s.tail + 1) % MAX_STRINGS + 9) % MAX_STRINGS =
          s.head % MAX_STRINGS by simp only [MAX_STRINGS] at *; omega)]

theorem queue_advance {s : KState} (hne : s.line_count ≠ 0) :
    queue { s with tail := (s.tail + 1) % MAX_STRINGS,
                   line_count := s.line_count - 1 } = (queue s).drop 1 := by
  obtain ⟨m, hm⟩ := Nat.exists_eq_succ_of_ne_zero hne
  simp only [queue, hm, Nat.succ_sub_one, List.range_succ_eq_map,
    List.map_cons, List.drop_succ_cons, List.drop_zero, List.map_map]
  apply List.map_congr_left
  intro i hi
  simp only [Function.comp_apply]
  rw [slotAt_set_tail]
  exact slotAt_congr s (by simp only [MAX_STRINGS]; omega)

/-! ### Behaviour of consumeN and appendAll -/

theorem consumeN_spec :
    ∀ (k : Nat) (s : KState), Inv s → k ≤ s.line_count →
      (consumeN k s).2 = (queue s).take k ∧ Inv (consumeN k s).1 ∧
        queue (consumeN k s).1 = (queue s).drop k ∧
        (consumeN k s).1.line_count = s.line_count - k := by
  intro k
  induction k with
  | zero =>
    intro s hInv _
    exact ⟨by simp [consumeN], hInv, by simp [consumeN], by simp [consumeN]⟩
  | succ k ih =>
    intro s hInv hk
    have hne : s.line_count ≠ 0 := by omega
    have hread := read_consume 0 s hne
    have hstep : (consumeN (k + 1) s) =
        ((consumeN k (proc_read 0 0 false s).state).1,
          (proc_read 0 0 false s).out ::
            (consumeN k (proc_read 0 0 false s).state).2) := rfl
    have hs2 : (proc_read 0 0 false s).state =
        { s with tail := (s.tail + 1) % MAX_STRINGS,
                 line_count := s.line_count - 1 } := by rw [hread]
    have hInv2 : Inv (proc_read 0 0 false s).state := Inv_read 0 0 false hInv
    have hlc2 : (proc_read 0 0 false s).state.line_count =
        s.line_count - 1 := by rw [hs2]
    have hq2 : queue (proc_read 0 0 false s).state = (queue s).drop 1 := by
      rw [hs2]; exact queue_advance hne
    have hout : (proc_read 0 0 false s).out = slotAt s s.tail := by rw [hread]
    obtain ⟨ih1, ih2, ih3, ih4⟩ :=
      ih (proc_read 0 0 false s).state hInv2 (by omega)
    refine ⟨?_, ?_, ?_, ?_⟩
    · rw [hstep]
      simp only
      rw [ih1, hout, hq2, queue_cons s hne]
      rw [List.take_succ_cons, List.drop_succ_cons, List.drop_zero]
    · rw [hstep]; exact ih2
    · rw [hstep]
      simp only
      rw [ih3, hq2, queue_cons s hne]
      rw [List.drop_succ_cons, List.drop_succ_cons, List.drop_zero,
        List.drop_drop]
    · rw [hstep]
      simp only
      rw [ih4, hlc2]
      omega

theorem appendAll_spec :
    ∀ (strs : List (List Nat)) (s : KState), Inv s →
      Inv (appendAll strs s) ∧
        (appendAll strs s).line_count =
          min (s.line_count + strs.length) MAX_STRINGS ∧
        queue (appendAll strs s) =
          (queue s ++ strs.map wstored).drop
            (s.line_count + strs.length - MAX_STRINGS) := by
  intro strs
  induction strs with
  | nil =>
    intro s hInv
    obtain ⟨h1, h2, h3, h4⟩ := hInv
    refine ⟨⟨h1, h2, h3, h4⟩, ?_, ?_⟩
    · simp only [appendAll, List.length_nil]
      omega
    · simp only [appendAll, List.map_nil, List.append_nil]
      rw [show s.line_count + [].length - MAX_STRINGS = 0 by
        simp only [MAX_STRINGS] at *; simp; omega]
      rw [List.drop_zero]
  | cons x xs ih =>
    intro s hInv
    have hstep : appendAll (x :: xs) s =
        appendAll xs (add_to_buffer (wstored x) s) := by
      rw [show appendAll (x :: xs) s = appendAll xs ((proc_write x false s).1)
        from rfl, proc_write_state]
    have hInv1 : Inv (add_to_buffer (wstored x) s) := Inv_add _ hInv
    obtain ⟨ih1, ih2, ih3⟩ := ih (add_to_buffer (wstored x) s) hInv1
    obtain ⟨h1, h2, h3, h4⟩ := hInv
    by_cases hlt : s.line_count < MAX_STRINGS
    · have hq1 : queue (add_to_buffer (wstored x) s) =
          queue s ++ [wstored x] := by
        rw [queue_add_not_full (wstored x) ⟨h1, h2, h3, h4⟩ hlt,
          storedVal_wstored]
      have hlc1 : (add_to_buffer (wstored x) s).line_count =
          s.line_count + 1 := by rw [add_line_count]; simp [hlt]
      refine ⟨by rw [hstep]; exact ih1, ?_, ?_⟩
      · rw [hstep, ih2, hlc1]
        simp only [List.length_cons]
        omega
      · rw [hstep, ih3, hq1, hlc1]
        rw [List.append_assoc, List.singleton_append, ← List.map_cons]
        congr 1
        simp only [List.length_cons]
        omega
    · have hfull : s.line_count = MAX_STRINGS := by omega
      have hq1 : queue (add_to_buffer (wstored x) s) =
          (queue s).drop 1 ++ [wstored x] := by
        rw [queue_add_full (wstored x) ⟨h1, h2, h3, h4⟩ hfull,
          storedVal_wstored]
      have hlc1 : (add_to_buffer (wstored x) s).line_count =
          s.line_count := by rw [add_line_count]; simp [hlt]
      have hne : s.line_count ≠ 0 := by
        simp only [MAX_STRINGS] at hfull; omega
      refine ⟨by rw [hstep]; exact ih1, ?_, ?_⟩
      · rw [hstep, ih2, hlc1]
        simp only [List.length_cons, MAX_STRINGS] at *
        omega
      · rw [hstep, ih3, hq1, hlc1, hfull]
        rw [queue_cons s hne, List.drop_succ_cons, List.drop_zero]
        rw [List.append_assoc, List.singleton_append, ← List.map_cons]
        rw [show MAX_STRINGS + xs.length - MAX_STRINGS = xs.length by omega]
        rw [List.cons_append,
          show MAX_STRINGS + (x :: xs).length - MAX_STRINGS =
            xs.length + 1 by simp only [List.length_cons]; omega]
        rw [List.drop_succ_cons]

theorem wstored_of_pos {x : List Nat} (h0 : ∀ b ∈ x, b ≠ 0) :
    wstored x = x.take (min x.length (STR_SIZE - 1)) := by
  unfold wstored
  exact cstr_of_pos (fun b hb => h0 b (List.take_subset _ _ hb))

/-! ### The claims -/

/-- C1: strict FIFO delivery.  Starting from the empty channel, appending
`k ≤ MAX_STRINGS` records (NUL-free, each fitting in a slot) and then
consuming `k` times returns exactly those records in order, and the
`(k+1)`-th consume returns the empty signal (return value 0, no bytes). -/
theorem ouroboros_C1_fifo (strs : List (List Nat))
    (hk : strs.length ≤ MAX_STRINGS)
    (hfit : ∀ a ∈ strs, (∀ b ∈ a, b ≠ 0) ∧ a.length ≤ STR_SIZE - 1) :
    (consumeN strs.length (appendAll strs initState)).2 = strs ∧
    (proc_read 0 0 false
      (consumeN strs.length (appendAll strs initState)).1).ret = 0 ∧
    (proc_read 0 0 false
      (consumeN strs.length (appendAll strs initState)).1).out = [] := by
  obtain ⟨hA1, hA2, hA3⟩ := appendAll_spec strs initState Inv_initState
  have hz : initState.line_count = 0 := rfl
  have hM : MAX_STRINGS = 10 := rfl
  have e : initState.line_count + strs.length - MAX_STRINGS = 0 := by omega
  rw [e, List.drop_zero, queue_initState, List.nil_append] at hA3
  have hmap : strs.map wstored = strs := by
    rw [List.map_congr_left
      (fun a ha => wstored_of_fit (hfit a ha).1 (hfit a ha).2)]
    exact List.map_id strs
  rw [hmap] at hA3
  have hlc : (appendAll strs initState).line_count = strs.length := by
    rw [hA2]; omega
  obtain ⟨hC1, _, _, hC4⟩ :=
    consumeN_spec strs.length (appendAll strs initState) hA1 (by omega)
  have hfin : (consumeN strs.length (appendAll strs initState)).1.line_count
      = 0 := by rw [hC4]; omega
  refine ⟨?_, ?_, ?_⟩
  · rw [hC1, hA3, List.take_length]
  · rw [read_empty 0 false _ hfin]
  · rw [read_empty 0 false _ hfin]

/-- Witness for C1 at a concrete two-record run. -/
theorem ouroboros_C1_fifo_witness :
    (consumeN 2 (appendAll [[104, 105], [33]] initState)).2 =
      [[104, 105], [33]] ∧
    (proc_read 0 0 false
      (consumeN 2 (appendAll [[104, 105], [33]] initState)).1).ret = 0 ∧
    (proc_read 0 0 false
      (consumeN 2 (appendAll [[104, 105], [33]] initState)).1).out = [] :=
  ouroboros_C1_fifo [[104, 105], [33]] (by decide) (by decide)

/-- C2: overwrite-on-full.  When `line_count = MAX_STRINGS`, an append
advances `tail` by one modulo `MAX_STRINGS` and leaves `line_count` at
`MAX_STRINGS`; consequently after appending `MAX_STRINGS + 1` records to
the empty channel the first consumed record is the second appended one. -/
theorem ouroboros_C2_overwrite :
    (∀ (s : KState) (x : List Nat), s.line_count = MAX_STRINGS →
      (add_to_buffer x s).tail = (s.tail + 1) % MAX_STRINGS ∧
      (add_to_buffer x s).line_count = MAX_STRINGS) ∧
    (∀ (a b : List Nat) (rest : List (List Nat)),
      (a :: b :: rest).length = MAX_STRINGS + 1 →
      (∀ x ∈ a :: b :: rest, (∀ y ∈ x, y ≠ 0) ∧ x.length ≤ STR_SIZE - 1) →
      (proc_read 0 0 false (appendAll (a :: b :: rest) initState)).out
        = b) := by
  constructor
  · intro s x hfull
    have hnlt : ¬ s.line_count < MAX_STRINGS := by omega
    rw [add_tail, add_line_count]
    simp [hnlt, hfull]
  · intro a b rest hlen hfit
    obtain ⟨hA1, hA2, hA3⟩ :=
      appendAll_spec (a :: b :: rest) initState Inv_initState
    have hz : initState.line_count = 0 := rfl
    have hM : MAX_STRINGS = 10 := rfl
    have e : initState.line_count + (a :: b :: rest).length - MAX_STRINGS
        = 1 := by omega
    rw [e, queue_initState, List.nil_append, List.map_cons, List.map_cons,
      List.drop_one, List.tail_cons] at hA3
    have hlc : (appendAll (a :: b :: rest) initState).line_count
        = MAX_STRINGS := by rw [hA2]; omega
    have hne : (appendAll (a :: b :: rest) initState).line_count ≠ 0 := by
      omega
    have hcons := queue_cons (appendAll (a :: b :: rest) initState) hne
    have hslot : slotAt (appendAll (a :: b :: rest) initState)
        (appendAll (a :: b :: rest) initState).tail = wstored b :=
      congrArg List.headI (hcons.symm.trans hA3)
    rw [read_consume 0 _ hne]
    simp only
    rw [hslot]
    exact wstored_of_fit (hfit b (by simp)).1 (hfit b (by simp)).2

/-- Witness for C2: a full concrete state, and the 11-append scenario. -/
theorem ouroboros_C2_overwrite_witness :
    ((⟨fun _ => [97], 3, 3, 10⟩ : KState).line_count = MAX_STRINGS ∧
      (add_to_buffer [98] ⟨fun _ => [97], 3, 3, 10⟩).tail
        = (3 + 1) % MAX_STRINGS ∧
      (add_to_buffer [98] ⟨fun _ => [97], 3, 3, 10⟩).line_count
        = MAX_STRINGS) ∧
    (proc_read 0 0 false (appendAll
      ([97] :: [98] :: List.replicate 9 [99]) initState)).out = [98] := by
  constructor
  · exact ⟨rfl,
      ouroboros_C2_overwrite.1 ⟨fun _ => [97], 3, 3, 10⟩ [98] rfl⟩
  · exact ouroboros_C2_overwrite.2 [97] [98] (List.replicate 9 [99])
      (by decide) (by decide)

/-- C3: silent truncation.  An append stores exactly the first
`min (length input) (STR_SIZE - 1)` bytes of a NUL-free input in the slot
at `head` and still reports the full input length; a 100-byte input is
stored and later consumed with length exactly `STR_SIZE - 1 = 63`. -/
theorem ouroboros_C3_truncation :
    (∀ (data : List Nat) (s : KState), (∀ b ∈ data, b ≠ 0) →
      slotAt (proc_write data false s).1 s.head =
        data.take (min data.length (STR_SIZE - 1)) ∧
      (proc_write data false s).2 = (data.length : Int)) ∧
    (∀ data : List Nat, (∀ b ∈ data, b ≠ 0) → data.length = 100 →
      (proc_read 0 0 false
        (proc_write data false initState).1).out.length = STR_SIZE - 1) := by
  constructor
  · intro data s h0
    refine ⟨?_, proc_write_ret data s⟩
    rw [proc_write_state, slotAt_add, if_pos rfl, storedVal_wstored]
    exact wstored_of_pos h0
  · intro data h0 hlen
    have hs1 : (proc_write data false initState).1
        = add_to_buffer (wstored data) initState := proc_write_state _ _
    have hlc : (proc_write data false initState).1.line_count = 1 := by
      rw [hs1, add_line_count]; simp [initState, MAX_STRINGS]
    have htl : (proc_write data false initState).1.tail = 0 := by
      rw [hs1, add_tail]; simp [initState, MAX_STRINGS]
    have hne : (proc_write data false initState).1.line_count ≠ 0 := by
      omega
    rw [read_consume 0 _ hne]
    simp only
    have hcond : (0 : Nat) % MAX_STRINGS = initState.head % MAX_STRINGS :=
      rfl
    rw [htl, hs1, slotAt_add, if_pos hcond, storedVal_wstored,
      wstored_of_pos h0, List.length_take]
    have hS : STR_SIZE = 64 := rfl
    omega

/-- Witness for C3 at a 100-byte input. -/
theorem ouroboros_C3_truncation_witness :
    (∀ b ∈ List.replicate 100 97, b ≠ 0) ∧
    (slotAt (proc_write (List.replicate 100 97) false initState).1
        initState.head =
      (List.replicate 100 97).take
        (min (List.replicate 100 97).length (STR_SIZE - 1)) ∧
      (proc_write (List.replicate 100 97) false initState).2 =
        ((List.replicate 100 97).length : Int)) ∧
    (proc_read 0 0 false
      (proc_write (List.replicate 100 97) false initState).1).out.length =
        STR_SIZE - 1 :=
  ⟨by decide,
    ouroboros_C3_truncation.1 (List.replicate 100 97) initState (by decide),
    ouroboros_C3_truncation.2 (List.replicate 100 97) (by decide)
      (by decide)⟩

/-- C4: the read path is NOT atomic on a transfer fault.  After one record
is appended, a read whose user-space copy faults returns `-EFAULT` but has
already advanced `tail` and decremented `line_count`: the record is lost,
contradicting the required copy-then-advance order. -/
theorem ouroboros_C4_fault_loses_record :
    (proc_write [97] false initState).1.line_count = 1 ∧
    (proc_write [97] false initState).1.tail = 0 ∧
    (proc_read 0 0 true (proc_write [97] false initState).1).ret
      = -EFAULT ∧
    (proc_read 0 0 true
      (proc_write [97] false initState).1).state.line_count = 0 ∧
    (proc_read 0 0 true (proc_write [97] false initState).1).state.tail
      = 1 ∧
    (proc_read 0 0 true (proc_write [97] false initState).1).out = [] := by
  decide

/-- C5: a consume on an empty channel is the empty signal and a complete
no-op, and any number of further consumes stays a no-op. -/
theorem ouroboros_C5_empty_idempotent (s : KState) (c p : Nat) (f : Bool)
    (k : Nat) (h0 : s.line_count = 0) :
    (proc_read c p f s).state = s ∧ (proc_read c p f s).ret = 0 ∧
    (proc_read c p f s).out = [] ∧
    (consumeN k s).1 = s ∧ (consumeN k s).2 = List.replicate k [] := by
  have hread : ∀ (c' p' : Nat) (f' : Bool), proc_read c' p' f' s =
      { state := s, pos := p', ret := 0, out := [] } := by
    intro c' p' f'
    by_cases hp : 0 < p'
    · exact read_posit c' p' f' s hp
    · have hp0 : p' = 0 := by omega
      subst hp0
      exact read_empty c' f' s h0
  have haux : ∀ m : Nat,
      (consumeN m s).1 = s ∧ (consumeN m s).2 = List.replicate m [] := by
    intro m
    induction m with
    | zero => exact ⟨rfl, rfl⟩
    | succ m ih =>
      have hstep : consumeN (m + 1) s =
          ((consumeN m (proc_read 0 0 false s).state).1,
            (proc_read 0 0 false s).out ::
              (consumeN m (proc_read 0 0 false s).state).2) := rfl
      rw [hstep, hread 0 0 false]
      dsimp only
      exact ⟨ih.1, by rw [ih.2]; rfl⟩
  exact ⟨by rw [hread], by rw [hread], by rw [hread],
    (haux k).1, (haux k).2⟩

/-- Witness for C5 at the initial (empty) state. -/
theorem ouroboros_C5_empty_idempotent_witness :
    initState.line_count = 0 ∧
    ((proc_read 5 0 false initState).state = initState ∧
      (proc_read 5 0 false initState).ret = 0 ∧
      (proc_read 5 0 false initState).out = [] ∧
      (consumeN 3 initState).1 = initState ∧
      (consumeN 3 initState).2 = List.replicate 3 []) :=
  ⟨rfl, ouroboros_C5_empty_idempotent initState 5 0 false 3 rfl⟩

/-- C6: session read-once bound.  A read with a nonzero session offset
returns the empty signal and mutates nothing, even when unread records
exist; a fresh session (offset 0) consumes the oldest record. -/
theorem ouroboros_C6_session_bound :
    (∀ (s : KState) (c p : Nat) (f : Bool), 0 < p →
      (proc_read c p f s).state = s ∧ (proc_read c p f s).ret = 0 ∧
      (proc_read c p f s).out = []) ∧
    (∀ (s : KState) (c : Nat), s.line_count ≠ 0 →
      (proc_read c 0 false s).out = slotAt s s.tail ∧
      (proc_read c 0 false s).state.line_count = s.line_count - 1) := by
  constructor
  · intro s c p f hp
    rw [read_posit c p f s hp]
    exact ⟨rfl, rfl, rfl⟩
  · intro s c hne
    rw [read_consume c s hne]
    exact ⟨rfl, rfl⟩

/-- Witness for C6 on a one-record state: offset 1 suppresses the read
even though a record is present, offset 0 consumes it. -/
theorem ouroboros_C6_session_bound_witness :
    (0 < 1 ∧
      (proc_read 0 1 false (proc_write [97] false initState).1).state =
        (proc_write [97] false initState).1 ∧
      (proc_read 0 1 false (proc_write [97] false initState).1).ret = 0 ∧
      (proc_read 0 1 false (proc_write [97] false initState).1).out = []) ∧
    ((proc_write [97] false initState).1.line_count ≠ 0 ∧
      (proc_read 0 0 false (proc_write [97] false initState).1).out =
        slotAt (proc_write [97] false initState).1
          (proc_write [97] false initState).1.tail ∧
      (proc_read 0 0 false
        (proc_write [97] false initState).1).state.line_count =
        (proc_write [97] false initState).1.line_count - 1) :=
  ⟨⟨by decide, ouroboros_C6_session_bound.1
      (proc_write [97] false initState).1 0 1 false (by decide)⟩,
    ⟨by decide, ouroboros_C6_session_bound.2
      (proc_write [97] false initState).1 0 (by decide)⟩⟩

/-- C7: an append's return value is the caller's original byte count,
never negative (no error), even when the stored record is strictly
shorter because of truncation. -/
theorem ouroboros_C7_append_ret (data : List Nat) (s : KState) :
    (proc_write data false s).2 = (data.length : Int) ∧
    0 ≤ (proc_write data false s).2 ∧
    (STR_SIZE - 1 < data.length →
      (slotAt (proc_write data false s).1 s.head).length < data.length) := by
  refine ⟨proc_write_ret data s, ?_, ?_⟩
  · rw [proc_write_ret]
    exact Int.natCast_nonneg data.length
  · intro hbig
    rw [proc_write_state, slotAt_add, if_pos rfl, storedVal_wstored]
    have hle := wstored_length_le data
    have hS : STR_SIZE = 64 := rfl
    omega

/-- Witness for C7 at an oversized (100-byte) input. -/
theorem ouroboros_C7_append_ret_witness :
    STR_SIZE - 1 < (List.replicate 100 97).length ∧
    ((proc_write (List.replicate 100 97) false initState).2 =
        ((List.replicate 100 97).length : Int) ∧
      0 ≤ (proc_write (List.replicate 100 97) false initState).2 ∧
      (slotAt (proc_write (List.replicate 100 97) false initState).1
        initState.head).length < (List.replicate 100 97).length) :=
  ⟨by decide,
    (ouroboros_C7_append_ret (List.replicate 100 97) initState).1,
    (ouroboros_C7_append_ret (List.replicate 100 97) initState).2.1,
    (ouroboros_C7_append_ret (List.replicate 100 97) initState).2.2
      (by decide)⟩

/-- C8: after any sequence of append and read operations from the initial
state, both indices are in `[0, MAX_STRINGS)` and the record count never
exceeds `MAX_STRINGS`. -/
theorem ouroboros_C8_indices_bounded (ops : List Op) :
    (run ops).head < MAX_STRINGS ∧ (run ops).tail < MAX_STRINGS ∧
    (run ops).line_count ≤ MAX_STRINGS := by
  obtain ⟨h1, h2, h3, _⟩ := Inv_run ops
  exact ⟨h1, h2, h3⟩

/-- C9: the implicit relation `head = (tail + line_count) % MAX_STRINGS`
holds in every state reachable from the initial state. -/
theorem ouroboros_C9_head_eq_tail_add_count (ops : List Op) :
    (run ops).head = ((run ops).tail + (run ops).line_count) % MAX_STRINGS :=
  (Inv_run ops).2.2.2

/-- C10: the read path ignores the caller's requested byte count: the
result is identical for any two counts, and a fresh-session read of a
nonempty buffer copies and returns exactly the stored record's length,
even when that exceeds the requested count. -/
theorem ouroboros_C10_count_ignored :
    (∀ (c₁ c₂ p : Nat) (f : Bool) (s : KState),
      proc_read c₁ p f s = proc_read c₂ p f s) ∧
    (∀ (s : KState) (c : Nat), s.line_count ≠ 0 →
      (proc_read c 0 false s).out = slotAt s s.tail ∧
      (proc_read c 0 false s).ret = ((slotAt s s.tail).length : Int) ∧
      (c < (slotAt s s.tail).length →
        (c : Int) < (proc_read c 0 false s).ret)) := by
  constructor
  · intro c₁ c₂ p f s
    rfl
  · intro s c hne
    rw [read_consume c s hne]
    refine ⟨rfl, rfl, ?_⟩
    intro hc
    dsimp only
    exact_mod_cast hc

/-- Witness for C10: a 2-byte record read with requested count 1 still
delivers 2 bytes. -/
theorem ouroboros_C10_count_ignored_witness :
    (proc_write [97, 98] false initState).1.line_count ≠ 0 ∧
    ((proc_read 1 0 false (proc_write [97, 98] false initState).1).out =
        slotAt (proc_write [97, 98] false initState).1
          (proc_write [97, 98] false initState).1.tail ∧
      (proc_read 1 0 false (proc_write [97, 98] false initState).1).ret =
        ((slotAt (proc_write [97, 98] false initState).1
          (proc_write [97, 98] false initState).1.tail).length : Int) ∧
      (1 : Int) <
        (proc_read 1 0 false (proc_write [97, 98] false initState).1).ret) :=
  ⟨by decide,
    (ouroboros_C10_count_ignored.2
      (proc_write [97, 98] false initState).1 1 (by decide)).1,
    (ouroboros_C10_count_ignored.2
      (proc_write [97, 98] false initState).1 1 (by decide)).2.1,
    (ouroboros_C10_count_ignored.2
      (proc_write [97, 98] false initState).1 1 (by decide)).2.2
      (by decide)⟩

end Ouroboros
